import Mathlib

/-
Verification of the seasonal forecasting and accuracy-evaluation engine of the
Forecast-App repository (src/lib/forecast.ts).

The repository carries two revisions of src/lib/forecast.ts.  The current one
is the revision reproduced in src/README.md (lines 29-143): it is the only
revision exporting `dailyStats`, which src/app/api/forecast/route.ts imports
alongside `buildSeasonalForecast`, `mae` and `mape`.  The definitions below
embed that current revision; where the stale copy at src/lib/forecast.ts
differs (its `mae` iterates over `actual.length` alone, its `mape` has no
epsilon parameter, its carry-forward seed is a constant 0) this is noted next
to the affected definition.

Modelling conventions:
- A JavaScript `Date` is modelled as an integer count of minutes of local
  wall-clock time since a fixed local midnight epoch (`ts : ℤ`).  JS dates
  carry milliseconds, but every operation the engine performs (getDay,
  getHours, getMinutes, setDate, setHours(0,0,0,0), setMinutes, comparison)
  factors through whole minutes and uniform local wall-clock arithmetic; DST
  irregularities are out of scope per the repository's own README.
- JS numbers are modelled as exact rationals (ℚ).  `NaN` and JS `null`
  results are modelled by `Option`: `none` stands for the absent/NaN marker
  that the respective function documents.
- `Math.sqrt` has no computable counterpart on ℚ; `dailyStats` therefore
  records the radicand `varSum / N` in its `varPop` field, and theorems about
  the source's `std` field speak of `Real.sqrt` of that radicand.
-/

/-- One historical observation, the element type of `history` in
`buildSeasonalForecast` (`{ ts: Date; value: number }` in the source). -/
structure Observation where
  ts : ℤ
  value : ℚ
deriving DecidableEq, Repr

/-- Output point of the engine (`FifteenMinPoint = { ts: string; value: number }`
in the source; the ISO string is an injective rendering of the instant, so the
instant itself is kept). -/
structure FifteenMinPoint where
  ts : ℤ
  value : ℚ
deriving DecidableEq, Repr

/-- `slotIndexLocal` from src/README.md (embedded forecast.ts):
`d.getHours() * 4 + Math.floor(d.getMinutes() / 15)`, the 15-minute slot
index 0..95 of an instant's local time of day. -/
def slotIndexLocal (t : ℤ) : ℕ :=
  let m := (t.emod 1440).toNat
  m / 60 * 4 + m % 60 / 15

/-- JS `Date.prototype.getDay`: day of week of the local day containing `t`,
0 = Sunday.  The epoch day (day 0) of the model is a Thursday, matching the
JS epoch 1970-01-01; only equality of `getDay` values matters to the engine. -/
def getDay (t : ℤ) : ℤ :=
  (t.fdiv 1440 + 4).emod 7

/-- The body of the history loop of `buildSeasonalForecast`:
skip rows outside `[cutoff, targetDayStart)`, skip rows on a different weekday,
defensively skip an out-of-range slot, and otherwise add the row's value into
`sums[slot]` and bump `counts[slot]`.  The two length-96 arrays are modelled
as total functions on ℕ. -/
def accumStep (targetDayStart cutoff targetDow : ℤ)
    (acc : (ℕ → ℚ) × (ℕ → ℕ)) (row : Observation) : (ℕ → ℚ) × (ℕ → ℕ) :=
  if row.ts < cutoff ∨ targetDayStart ≤ row.ts then acc
  else if getDay row.ts ≠ targetDow then acc
  else if slotIndexLocal row.ts < 96 then
    (fun j => if j = slotIndexLocal row.ts then acc.1 j + row.value else acc.1 j,
      fun j => if j = slotIndexLocal row.ts then acc.2 j + 1 else acc.2 j)
  else acc

/-- The output loop of `buildSeasonalForecast`: for each index in turn, emit
the slot average when the slot has data, otherwise the carried `lastValue`,
which the emitted value then replaces.  The emitted timestamp is
`base + 15 i` minutes (`ts.setMinutes(i * 15)` on a copy of midnight `base`). -/
def emitPoints (sums : ℕ → ℚ) (counts : ℕ → ℕ) (base : ℤ) :
    ℚ → List ℕ → List FifteenMinPoint
  | _, [] => []
  | lastValue, i :: rest =>
    let value := if 0 < counts i then sums i / (counts i : ℚ) else lastValue
    ⟨base + 15 * (i : ℤ), value⟩ :: emitPoints sums counts base value rest

/-- `buildSeasonalForecast` from src/README.md (embedded forecast.ts,
lines 94-143): same-weekday/same-slot averaging over the lookback window,
with a carry-forward fallback seeded by the first slot that has data (0 when
none has).  `cutoff.setDate(cutoff.getDate() - weeksLookback * 7)` is
`targetDayStart - weeksLookback * 7 * 1440` minutes, and
`base.setHours(0,0,0,0)` floors `targetDayStart` to its local midnight,
`1440 * (targetDayStart.fdiv 1440)`.  (The stale src/lib/forecast.ts revision
starts `lastValue` at 0 without the seed scan.) -/
def buildSeasonalForecast (targetDayStart : ℤ) (history : List Observation)
    (weeksLookback : ℕ := 4) : List FifteenMinPoint :=
  let targetDow := getDay targetDayStart
  let cutoff := targetDayStart - (weeksLookback : ℤ) * 7 * 1440
  let acc := history.foldl (accumStep targetDayStart cutoff targetDow)
    (fun _ => 0, fun _ => 0)
  let base := 1440 * targetDayStart.fdiv 1440
  let seed :=
    match (List.range 96).find? (fun i => decide (0 < acc.2 i)) with
    | some i => acc.1 i / (acc.2 i : ℚ)
    | none => 0
  emitPoints acc.1 acc.2 base seed (List.range 96)

/-- `mae` from src/README.md (embedded forecast.ts, lines 29-36): mean of the
absolute differences over the positional pairs up to the shorter length, `NaN`
(here `none`) when that length is 0.  (The stale src/lib/forecast.ts revision
instead iterates over all of `actual` and divides by `actual.length`.) -/
def mae (actual pred : List ℚ) : Option ℚ :=
  if min actual.length pred.length = 0 then none
  else
    some ((((actual.zip pred).map fun p => |p.1 - p.2|).sum) /
      ((min actual.length pred.length : ℕ) : ℚ))

/-- `mape` from src/README.md (embedded forecast.ts, lines 42-57): over the
positional pairs up to the shorter length, skip a pair when
`|actual| <= epsilon` (the source's additional `!Number.isFinite(a)` skip is
vacuous for rational inputs), accumulate `|(a - p) / a|` and the count, and
return `(sum / count) * 100`, or `null` (here `none`) when the shorter length
or the qualifying count is 0.  The source default `epsilon = 1e-6` is kept. -/
def mape (actual pred : List ℚ) (epsilon : ℚ := 1 / 1000000) : Option ℚ :=
  if min actual.length pred.length = 0 then none
  else
    let acc := (actual.zip pred).foldl
      (fun (acc : ℚ × ℕ) ap =>
        if |ap.1| ≤ epsilon then acc
        else (acc.1 + |(ap.1 - ap.2) / ap.1|, acc.2 + 1))
      (0, 0)
    if acc.2 = 0 then none else some (acc.1 / (acc.2 : ℚ) * 100)

/-- Result record of `dailyStats`.  `none` models the `NaN` marker.  `varPop`
holds the radicand `varSum / values.length` of the source's
`std = Math.sqrt(varSum / values.length)`; the standard deviation itself is
`Real.sqrt varPop` (square roots are not computable on ℚ). -/
structure DailyStats where
  min : Option ℚ
  max : Option ℚ
  avg : Option ℚ
  varPop : Option ℚ
deriving DecidableEq, Repr

/-- `dailyStats` from src/README.md (embedded forecast.ts, lines 59-83):
all-NaN on empty input; otherwise the running min/max (the source's
`Infinity` / `-Infinity` seeds reduce, on a non-empty list, to folding from
the head), the arithmetic mean, and the population variance
`varSum / N` whose square root the source returns as `std`. -/
def dailyStats : List ℚ → DailyStats
  | [] => ⟨none, none, none, none⟩
  | v :: vs =>
    let mn := vs.foldl min v
    let mx := vs.foldl max v
    let avg := (v :: vs).sum / ((v :: vs).length : ℚ)
    let varSum := ((v :: vs).map fun x => (x - avg) * (x - avg)).sum
    ⟨some mn, some mx, some avg, some (varSum / ((v :: vs).length : ℚ))⟩

/-- An observation counts toward slot `k` of the forecast for
`targetDayStart` iff its timestamp lies in the lookback window
`[targetDayStart - weeksLookback*7 days, targetDayStart)`, its day of week
equals the target day's, and its local time of day falls in slot `k`. -/
def matchesSlot (targetDayStart : ℤ) (weeksLookback : ℕ) (k : ℕ)
    (o : Observation) : Bool :=
  decide (targetDayStart - (weeksLookback : ℤ) * 7 * 1440 ≤ o.ts) &&
    decide (o.ts < targetDayStart) &&
    (getDay o.ts == getDay targetDayStart) &&
    (slotIndexLocal o.ts == k)

/-- The observations of `history` that count toward slot `k`. -/
def matchingObs (targetDayStart : ℤ) (weeksLookback : ℕ) (k : ℕ)
    (history : List Observation) : List Observation :=
  history.filter (matchesSlot targetDayStart weeksLookback k)

/-- Sum of the values counting toward slot `k`. -/
def slotSum (targetDayStart : ℤ) (weeksLookback : ℕ)
    (history : List Observation) (k : ℕ) : ℚ :=
  ((matchingObs targetDayStart weeksLookback k history).map
    Observation.value).sum

/-- Number of observations counting toward slot `k`. -/
def slotCount (targetDayStart : ℤ) (weeksLookback : ℕ)
    (history : List Observation) (k : ℕ) : ℕ :=
  (matchingObs targetDayStart weeksLookback k history).length

/-- The carry-forward seed: the average of the first slot (scanning upward
from 0) that has matching data, 0 when no slot has any. -/
def seedValue (targetDayStart : ℤ) (weeksLookback : ℕ)
    (history : List Observation) : ℚ :=
  match (List.range 96).find?
      (fun k => decide (0 < slotCount targetDayStart weeksLookback history k)) with
  | some k =>
      slotSum targetDayStart weeksLookback history k /
        (slotCount targetDayStart weeksLookback history k : ℚ)
  | none => 0

/-- The value emitted at index `k`, described directly: the slot average when
slot `k` has data, otherwise the value of index `k - 1`, with `seed` below
index 0. -/
def valueAt (sums : ℕ → ℚ) (counts : ℕ → ℕ) (seed : ℚ) : ℕ → ℚ
  | 0 => if 0 < counts 0 then sums 0 / (counts 0 : ℚ) else seed
  | k + 1 =>
    if 0 < counts (k + 1) then sums (k + 1) / (counts (k + 1) : ℚ)
    else valueAt sums counts seed k

/-! ### Helper lemmas -/

lemma slotIndexLocal_lt (t : ℤ) : slotIndexLocal t < 96 := by
  have h0 : (0 : ℤ) ≤ t.emod 1440 := Int.emod_nonneg t (by norm_num)
  have h1 : t.emod 1440 < 1440 := Int.emod_lt_of_pos t (by norm_num)
  show (t.emod 1440).toNat / 60 * 4 + (t.emod 1440).toNat % 60 / 15 < 96
  omega

lemma matchesSlot_iff (t : ℤ) (w : ℕ) (k : ℕ) (o : Observation) :
    matchesSlot t w k o = true ↔
      (¬(o.ts < t - (w : ℤ) * 7 * 1440 ∨ t ≤ o.ts)) ∧
        getDay o.ts = getDay t ∧ slotIndexLocal o.ts = k := by
  simp [matchesSlot, not_or, not_lt, and_assoc]

lemma accumStep_fst (t : ℤ) (w : ℕ) (z : (ℕ → ℚ) × (ℕ → ℕ))
    (o : Observation) (k : ℕ) :
    (accumStep t (t - (w : ℤ) * 7 * 1440) (getDay t) z o).1 k =
      z.1 k + (if matchesSlot t w k o then o.value else 0) := by
  unfold accumStep
  by_cases h1 : o.ts < t - (w : ℤ) * 7 * 1440 ∨ t ≤ o.ts
  · simp [h1, matchesSlot_iff]
  · by_cases h2 : getDay o.ts = getDay t
    · simp only [if_neg h1, if_pos (slotIndexLocal_lt o.ts), h2, ne_eq,
        not_true_eq_false, if_false, if_neg (not_not_intro h2)]
      by_cases h3 : slotIndexLocal o.ts = k
      · subst h3
        simp [matchesSlot_iff, h1, h2]
      · have h4 : ¬k = slotIndexLocal o.ts := fun h => h3 h.symm
        simp [matchesSlot_iff, h3, h4]
    · simp [h1, h2, matchesSlot_iff]

lemma accumStep_snd (t : ℤ) (w : ℕ) (z : (ℕ → ℚ) × (ℕ → ℕ))
    (o : Observation) (k : ℕ) :
    (accumStep t (t - (w : ℤ) * 7 * 1440) (getDay t) z o).2 k =
      z.2 k + (if matchesSlot t w k o then 1 else 0) := by
  unfold accumStep
  by_cases h1 : o.ts < t - (w : ℤ) * 7 * 1440 ∨ t ≤ o.ts
  · simp [h1, matchesSlot_iff]
  · by_cases h2 : getDay o.ts = getDay t
    · simp only [if_neg h1, if_pos (slotIndexLocal_lt o.ts), h2, ne_eq,
        not_true_eq_false, if_false, if_neg (not_not_intro h2)]
      by_cases h3 : slotIndexLocal o.ts = k
      · subst h3
        simp [matchesSlot_iff, h1, h2]
      · have h4 : ¬k = slotIndexLocal o.ts := fun h => h3 h.symm
        simp [matchesSlot_iff, h3, h4]
    · simp [h1, h2, matchesSlot_iff]

lemma accum_fst (t : ℤ) (w : ℕ) :
    ∀ (h : List Observation) (z : (ℕ → ℚ) × (ℕ → ℕ)) (k : ℕ),
      (h.foldl (accumStep t (t - (w : ℤ) * 7 * 1440) (getDay t)) z).1 k =
        z.1 k + slotSum t w h k
  | [], z, k => by simp [slotSum, matchingObs]
  | o :: rest, z, k => by
    rw [List.foldl_cons, accum_fst t w rest _ k, accumStep_fst t w z o k]
    unfold slotSum matchingObs
    rw [List.filter_cons]
    by_cases hm : matchesSlot t w k o
    · simp [hm, add_assoc]
    · simp [hm]

lemma accum_snd (t : ℤ) (w : ℕ) :
    ∀ (h : List Observation) (z : (ℕ → ℚ) × (ℕ → ℕ)) (k : ℕ),
      (h.foldl (accumStep t (t - (w : ℤ) * 7 * 1440) (getDay t)) z).2 k =
        z.2 k + slotCount t w h k
  | [], z, k => by simp [slotCount, matchingObs]
  | o :: rest, z, k => by
    rw [List.foldl_cons, accum_snd t w rest _ k, accumStep_snd t w z o k]
    unfold slotCount matchingObs
    rw [List.filter_cons]
    by_cases hm : matchesSlot t w k o
    · simp [hm, add_assoc, add_comm, add_left_comm]
    · simp [hm]

lemma emitPoints_append (sums : ℕ → ℚ) (counts : ℕ → ℕ) (base : ℤ) :
    ∀ (l1 l2 : List ℕ) (lastValue : ℚ),
      emitPoints sums counts base lastValue (l1 ++ l2) =
        emitPoints sums counts base lastValue l1 ++
          emitPoints sums counts base
            (l1.foldl
              (fun v i => if 0 < counts i then sums i / (counts i : ℚ) else v)
              lastValue) l2
  | [], l2, lastValue => by simp [emitPoints]
  | i :: rest, l2, lastValue => by
    simp only [List.cons_append, emitPoints, List.foldl_cons]
    congr 1
    exact emitPoints_append sums counts base rest l2 _

lemma foldl_step_range (sums : ℕ → ℚ) (counts : ℕ → ℕ) (seed : ℚ) :
    ∀ n : ℕ,
      (List.range n).foldl
          (fun v i => if 0 < counts i then sums i / (counts i : ℚ) else v)
          seed =
        (match n with
          | 0 => seed
          | k + 1 => valueAt sums counts seed k)
  | 0 => by simp
  | n + 1 => by
    rw [List.range_succ, List.foldl_append, foldl_step_range sums counts seed n]
    cases n with
    | zero => simp [valueAt]
    | succ k => simp [valueAt]

lemma emitPoints_range (sums : ℕ → ℚ) (counts : ℕ → ℕ) (base : ℤ) :
    ∀ (n : ℕ) (seed : ℚ),
      emitPoints sums counts base seed (List.range n) =
        (List.range n).map
          (fun k => ⟨base + 15 * (k : ℤ), valueAt sums counts seed k⟩)
  | 0, seed => by simp [emitPoints]
  | n + 1, seed => by
    rw [List.range_succ, emitPoints_append, emitPoints_range sums counts base n,
      List.map_append, foldl_step_range]
    cases n with
    | zero => simp [emitPoints, valueAt]
    | succ k => simp [emitPoints, valueAt]

lemma buildSeasonalForecast_eq (t : ℤ) (h : List Observation) (w : ℕ) :
    buildSeasonalForecast t h w =
      (List.range 96).map
        (fun k =>
          ⟨1440 * t.fdiv 1440 + 15 * (k : ℤ),
            valueAt (slotSum t w h) (slotCount t w h) (seedValue t w h) k⟩) := by
  have hfst :
      (h.foldl (accumStep t (t - (w : ℤ) * 7 * 1440) (getDay t))
          (fun _ => 0, fun _ => 0)).1 = slotSum t w h := by
    funext k
    rw [accum_fst t w h _ k]
    simp
  have hsnd :
      (h.foldl (accumStep t (t - (w : ℤ) * 7 * 1440) (getDay t))
          (fun _ => 0, fun _ => 0)).2 = slotCount t w h := by
    funext k
    rw [accum_snd t w h _ k]
    simp
  show emitPoints _ _ _ _ _ = _
  rw [hfst, hsnd, emitPoints_range]
  rfl

lemma getD_map_range (n k : ℕ) (hk : k < n) (f : ℕ → FifteenMinPoint)
    (d : FifteenMinPoint) : ((List.range n).map f).getD k d = f k := by
  rw [List.getD_eq_getElem?_getD, List.getElem?_map, List.getElem?_range hk]
  rfl

/-- The pairs of `actual` and `pred` (positional, up to the shorter length)
that `mape` does not skip: those whose actual value is farther than `epsilon`
from zero. -/
def mapeQualified (actual pred : List ℚ) (epsilon : ℚ) : List (ℚ × ℚ) :=
  (actual.zip pred).filter fun p => decide (epsilon < |p.1|)

lemma mape_foldl (epsilon : ℚ) :
    ∀ (l : List (ℚ × ℚ)) (s : ℚ) (n : ℕ),
      l.foldl
          (fun (acc : ℚ × ℕ) ap =>
            if |ap.1| ≤ epsilon then acc
            else (acc.1 + |(ap.1 - ap.2) / ap.1|, acc.2 + 1)) (s, n) =
        (s + ((l.filter fun p => decide (epsilon < |p.1|)).map
            (fun p => |(p.1 - p.2) / p.1|)).sum,
          n + (l.filter fun p => decide (epsilon < |p.1|)).length)
  | [], s, n => by simp
  | ap :: rest, s, n => by
    rw [List.foldl_cons, List.filter_cons]
    by_cases h : |ap.1| ≤ epsilon
    · rw [if_pos h, if_neg (by simpa using not_lt.mpr h),
        mape_foldl epsilon rest s n]
    · rw [if_neg h, if_pos (by simpa using not_le.mp h),
        mape_foldl epsilon rest _ _]
      simp only [List.map_cons, List.sum_cons, List.length_cons, Prod.mk.injEq]
      exact ⟨by ring, by omega⟩

lemma zip_take_take : ∀ (a p : List ℚ) (n : ℕ),
    (a.take n).zip (p.take n) = (a.zip p).take n
  | [], p, n => by simp
  | a :: as, [], n => by simp
  | a :: as, b :: bs, 0 => by simp
  | a :: as, b :: bs, n + 1 => by
    simp [List.take_cons, zip_take_take as bs n]

/-! ### Claim theorems -/

/-- C4: for every pair of real sequences, `mape` pairs elements positionally
up to the shorter length, skips every pair whose actual value has absolute
value at most `epsilon` (the source default is `1e-6`), returns `100` times
the mean of `|(actual - predicted) / actual|` over the non-skipped pairs, and
returns the explicit absent marker (`none`, modelling `null` rather than
`NaN`) exactly when zero pairs qualify.  The hypothesis `0 ≤ epsilon` pins
the regime in which exact rationals model the JS arithmetic (no qualifying
pair divides by zero). -/
theorem mape_spec (actual pred : List ℚ) (epsilon : ℚ) (hε : 0 ≤ epsilon) :
    (mape actual pred epsilon = none ↔ mapeQualified actual pred epsilon = []) ∧
      (mapeQualified actual pred epsilon ≠ [] →
        mape actual pred epsilon =
          some (100 *
            (((mapeQualified actual pred epsilon).map
                (fun p => |(p.1 - p.2) / p.1|)).sum /
              ((mapeQualified actual pred epsilon).length : ℚ)))) := by
  unfold mape mapeQualified
  by_cases hmin : min actual.length pred.length = 0
  · have hzip : actual.zip pred = [] := by
      rw [← List.length_eq_zero, List.length_zip]
      simpa using hmin
    simp [hmin, hzip]
  · rw [if_neg hmin]
    have hfold := mape_foldl epsilon (actual.zip pred) 0 0
    rw [hfold]
    simp only [zero_add]
    by_cases hq : (actual.zip pred).filter (fun p => decide (epsilon < |p.1|)) = []
    · simp [hq]
    · have hlen : ((actual.zip pred).filter
          (fun p => decide (epsilon < |p.1|))).length ≠ 0 := by
        simpa [List.length_eq_zero] using hq
      simp only [if_neg hlen]
      constructor
      · constructor
        · intro h
          exact absurd h (by simp)
        · intro h
          exact absurd h hq
      · intro _
        rw [mul_comm]

/-- C4 witness: the spec's own example `mape([0,10,20],[1,9,22])`: the first
pair is skipped and the rest give `100 * ((1/10 + 2/20) / 2) = 10`. -/
theorem mape_spec_witness :
    (0 : ℚ) ≤ 1 / 1000000 ∧
      mapeQualified [0, 10, 20] [1, 9, 22] (1 / 1000000) ≠ [] ∧
      mape [0, 10, 20] [1, 9, 22] (1 / 1000000) =
        some (100 *
          (((mapeQualified [0, 10, 20] [1, 9, 22] (1 / 1000000)).map
              (fun p => |(p.1 - p.2) / p.1|)).sum /
            ((mapeQualified [0, 10, 20] [1, 9, 22] (1 / 1000000)).length : ℚ))) :=
  ⟨by norm_num,
    by with_unfolding_all decide,
    (mape_spec [0, 10, 20] [1, 9, 22] (1 / 1000000) (by norm_num)).2
      (by with_unfolding_all decide)⟩

/-- C5: `mae` pairs elements positionally up to
`min (actual.length) (pred.length)` and returns the mean of the absolute
differences over exactly those pairs — truncating to the shorter length does
not change the result — and returns the `NaN` marker (`none`) exactly when
either sequence is empty. -/
theorem mae_spec (actual pred : List ℚ) :
    (mae actual pred = none ↔ actual = [] ∨ pred = []) ∧
      (actual ≠ [] → pred ≠ [] →
        mae actual pred =
          some ((((actual.zip pred).map fun p => |p.1 - p.2|).sum) /
            ((min actual.length pred.length : ℕ) : ℚ))) ∧
      mae actual pred =
        mae (actual.take (min actual.length pred.length))
          (pred.take (min actual.length pred.length)) := by
  have hmin0 : min actual.length pred.length = 0 ↔ actual = [] ∨ pred = [] := by
    rw [Nat.min_eq_zero_iff, List.length_eq_zero, List.length_eq_zero]
  refine ⟨?_, ?_, ?_⟩
  · unfold mae
    by_cases hmin : min actual.length pred.length = 0
    · simp [hmin, hmin0.mp hmin]
    · rw [if_neg hmin]
      constructor
      · intro hc
        exact absurd hc (by simp)
      · intro hc
        exact absurd (hmin0.mpr hc) hmin
  · intro ha hp
    have hmin : min actual.length pred.length ≠ 0 :=
      fun h => (hmin0.mp h).elim ha hp
    unfold mae
    rw [if_neg hmin]
  · have h1 : (actual.take (min actual.length pred.length)).length
        = min actual.length pred.length := by
      rw [List.length_take]
      omega
    have h2 : (pred.take (min actual.length pred.length)).length
        = min actual.length pred.length := by
      rw [List.length_take]
      omega
    have h3 : (actual.take (min actual.length pred.length)).zip
        (pred.take (min actual.length pred.length)) = actual.zip pred := by
      rw [zip_take_take]
      apply List.take_of_length_le
      rw [List.length_zip]
    unfold mae
    rw [h1, h2, h3, min_self]

/-- C5 witness: the spec's own example `mae([1,2,3],[1,2,5]) = 2/3`. -/
theorem mae_spec_witness :
    ([1, 2, 3] : List ℚ) ≠ [] ∧ ([1, 2, 5] : List ℚ) ≠ [] ∧
      mae [1, 2, 3] [1, 2, 5] =
        some (((([1, 2, 3] : List ℚ).zip [1, 2, 5]).map
            (fun p => |p.1 - p.2|)).sum /
          ((min ([1, 2, 3] : List ℚ).length ([1, 2, 5] : List ℚ).length : ℕ) : ℚ)) :=
  ⟨by decide, by decide,
    (mae_spec [1, 2, 3] [1, 2, 5]).2.1 (by decide) (by decide)⟩

/-- C10: `mae` is zero on identical non-empty inputs, and every finite value
it returns is non-negative. -/
theorem mae_nonneg_spec :
    (∀ x : List ℚ, x ≠ [] → mae x x = some 0) ∧
      ∀ (a p : List ℚ) (r : ℚ), mae a p = some r → 0 ≤ r := by
  constructor
  · intro x hx
    have hsum : ∀ y : List ℚ, ((y.zip y).map fun p => |p.1 - p.2|).sum = 0 := by
      intro y
      induction y with
      | nil => simp
      | cons v vs ih => simp [ih]
    have hmin : min x.length x.length ≠ 0 := by
      simpa [List.length_eq_zero] using hx
    unfold mae
    rw [if_neg hmin, hsum, zero_div]
  · intro a p r hr
    unfold mae at hr
    by_cases hmin : min a.length p.length = 0
    · rw [if_pos hmin] at hr
      exact absurd hr (by simp)
    · rw [if_neg hmin] at hr
      rw [← Option.some.inj hr]
      apply div_nonneg
      · apply List.sum_nonneg
        intro x hx
        obtain ⟨q, _, rfl⟩ := List.mem_map.mp hx
        exact abs_nonneg _
      · positivity

/-- C10 witness: `mae([1,2],[1,2]) = 0`. -/
theorem mae_nonneg_spec_witness :
    ([1, 2] : List ℚ) ≠ [] ∧ mae [1, 2] [1, 2] = some 0 :=
  ⟨by decide, mae_nonneg_spec.1 [1, 2] (by decide)⟩

lemma foldl_min_le : ∀ (vs : List ℚ) (a : ℚ),
    vs.foldl min a ≤ a ∧ ∀ x ∈ vs, vs.foldl min a ≤ x
  | [], a => by simp
  | v :: vs, a => by
    obtain ⟨h1, h2⟩ := foldl_min_le vs (min a v)
    refine ⟨le_trans h1 (min_le_left a v), ?_⟩
    intro x hx
    rcases List.mem_cons.mp hx with rfl | hx
    · exact le_trans h1 (min_le_right a x)
    · exact h2 x hx

lemma foldl_min_mem : ∀ (vs : List ℚ) (a : ℚ),
    vs.foldl min a = a ∨ vs.foldl min a ∈ vs
  | [], a => Or.inl rfl
  | v :: vs, a => by
    rcases foldl_min_mem vs (min a v) with h | h
    · rw [List.foldl_cons, h]
      rcases min_choice a v with h' | h'
      · exact Or.inl h'
      · exact Or.inr (by rw [h']; exact List.mem_cons_self v vs)
    · exact Or.inr (List.mem_cons_of_mem v h)

lemma foldl_max_le : ∀ (vs : List ℚ) (a : ℚ),
    a ≤ vs.foldl max a ∧ ∀ x ∈ vs, x ≤ vs.foldl max a
  | [], a => by simp
  | v :: vs, a => by
    obtain ⟨h1, h2⟩ := foldl_max_le vs (max a v)
    refine ⟨le_trans (le_max_left a v) h1, ?_⟩
    intro x hx
    rcases List.mem_cons.mp hx with rfl | hx
    · exact le_trans (le_max_right a x) h1
    · exact h2 x hx

lemma foldl_max_mem : ∀ (vs : List ℚ) (a : ℚ),
    vs.foldl max a = a ∨ vs.foldl max a ∈ vs
  | [], a => Or.inl rfl
  | v :: vs, a => by
    rcases foldl_max_mem vs (max a v) with h | h
    · rw [List.foldl_cons, h]
      rcases max_choice a v with h' | h'
      · exact Or.inl h'
      · exact Or.inr (by rw [h']; exact List.mem_cons_self v vs)
    · exact Or.inr (List.mem_cons_of_mem v h)

/-- C6: `dailyStats` of the empty sequence is the all-NaN record; on every
non-empty sequence `min`/`max` are the sequence extrema, `avg` is the
arithmetic mean, and the recorded radicand is the population variance (sum of
squared deviations over `N`, not `N - 1`), so the source's `std` is its
square root; in particular `dailyStats [2,4,6]` yields min 2, max 6, avg 4
and variance `8/3` (std `= √(8/3)`). -/
theorem dailyStats_spec :
    dailyStats [] = ⟨none, none, none, none⟩ ∧
      (∀ l : List ℚ, l ≠ [] → ∃ mn mx av vr,
        dailyStats l = ⟨some mn, some mx, some av, some vr⟩ ∧
        mn ∈ l ∧ (∀ x ∈ l, mn ≤ x) ∧
        mx ∈ l ∧ (∀ x ∈ l, x ≤ mx) ∧
        av = l.sum / (l.length : ℚ) ∧
        vr = ((l.map fun x => (x - av) * (x - av)).sum) / (l.length : ℚ)) ∧
      dailyStats [2, 4, 6] = ⟨some 2, some 6, some 4, some (8 / 3)⟩ := by
  refine ⟨rfl, ?_, by with_unfolding_all decide⟩
  intro l hl
  match l, hl with
  | v :: vs, _ =>
    refine ⟨vs.foldl min v, vs.foldl max v, _, _, rfl, ?_, ?_, ?_, ?_, rfl, rfl⟩
    · rcases foldl_min_mem vs v with h | h
      · rw [h]; exact List.mem_cons_self v vs
      · exact List.mem_cons_of_mem v h
    · intro x hx
      rcases List.mem_cons.mp hx with rfl | hx
      · exact (foldl_min_le vs x).1
      · exact (foldl_min_le vs v).2 x hx
    · rcases foldl_max_mem vs v with h | h
      · rw [h]; exact List.mem_cons_self v vs
      · exact List.mem_cons_of_mem v h
    · intro x hx
      rcases List.mem_cons.mp hx with rfl | hx
      · exact (foldl_max_le vs x).1
      · exact (foldl_max_le vs v).2 x hx

/-- C6 witness: `dailyStats [5]` instantiates the non-empty clause. -/
theorem dailyStats_spec_witness :
    ∃ mn mx av vr,
      dailyStats [(5 : ℚ)] = ⟨some mn, some mx, some av, some vr⟩ ∧
      mn ∈ [(5 : ℚ)] ∧ (∀ x ∈ [(5 : ℚ)], mn ≤ x) ∧
      mx ∈ [(5 : ℚ)] ∧ (∀ x ∈ [(5 : ℚ)], x ≤ mx) ∧
      av = [(5 : ℚ)].sum / (([(5 : ℚ)].length : ℕ) : ℚ) ∧
      vr = (([(5 : ℚ)].map fun x => (x - av) * (x - av)).sum) /
        (([(5 : ℚ)].length : ℕ) : ℚ) :=
  dailyStats_spec.2.1 [(5 : ℚ)] (by decide)

lemma list_mul_le_sum : ∀ (l : List ℚ) (m : ℚ),
    (∀ x ∈ l, m ≤ x) → m * (l.length : ℚ) ≤ l.sum
  | [], m, _ => by simp
  | v :: vs, m, h => by
    have hv : m ≤ v := h v (List.mem_cons_self v vs)
    have ih := list_mul_le_sum vs m fun x hx => h x (List.mem_cons_of_mem v hx)
    simp only [List.length_cons, List.sum_cons]
    push_cast
    nlinarith

lemma list_sum_le_mul : ∀ (l : List ℚ) (m : ℚ),
    (∀ x ∈ l, x ≤ m) → l.sum ≤ m * (l.length : ℚ)
  | [], m, _ => by simp
  | v :: vs, m, h => by
    have hv : v ≤ m := h v (List.mem_cons_self v vs)
    have ih := list_sum_le_mul vs m fun x hx => h x (List.mem_cons_of_mem v hx)
    simp only [List.length_cons, List.sum_cons]
    push_cast
    nlinarith

/-- C9: on every non-empty sequence the `dailyStats` fields satisfy
`min ≤ avg ≤ max`, the recorded population variance is non-negative (so the
source's `std = √varPop` is a well-defined non-negative real), and a
single-element sequence yields `min = max = avg = v` with zero variance
(hence zero standard deviation). -/
theorem dailyStats_bounds_spec :
    (∀ (l : List ℚ) (mn mx av vr : ℚ),
      dailyStats l = ⟨some mn, some mx, some av, some vr⟩ →
        mn ≤ av ∧ av ≤ mx ∧ 0 ≤ vr ∧ 0 ≤ Real.sqrt ((vr : ℚ) : ℝ)) ∧
      ∀ v : ℚ, dailyStats [v] = ⟨some v, some v, some v, some 0⟩ := by
  constructor
  · intro l mn mx av vr h
    match l, h with
    | v :: vs, h =>
      simp only [dailyStats, DailyStats.mk.injEq, Option.some.injEq] at h
      obtain ⟨h1, h2, h3, h4⟩ := h
      have hlen : (0 : ℚ) < ((v :: vs).length : ℚ) := by
        simp only [List.length_cons]
        push_cast
        positivity
      refine ⟨?_, ?_, ?_, Real.sqrt_nonneg _⟩
      · rw [← h1, ← h3, le_div_iff₀ hlen]
        apply list_mul_le_sum
        intro x hx
        rcases List.mem_cons.mp hx with rfl | hx
        · exact (foldl_min_le vs x).1
        · exact (foldl_min_le vs v).2 x hx
      · rw [← h2, ← h3, div_le_iff₀ hlen]
        apply list_sum_le_mul
        intro x hx
        rcases List.mem_cons.mp hx with rfl | hx
        · exact (foldl_max_le vs x).1
        · exact (foldl_max_le vs v).2 x hx
      · rw [← h4]
        apply div_nonneg _ (le_of_lt hlen)
        apply List.sum_nonneg
        intro x hx
        obtain ⟨q, _, rfl⟩ := List.mem_map.mp hx
        exact mul_self_nonneg _
  · intro v
    simp only [dailyStats, List.foldl_nil, List.sum_cons, List.sum_nil,
      List.length_cons, List.length_nil, List.map_cons, List.map_nil,
      DailyStats.mk.injEq, Option.some.injEq]
    norm_num

/-- C9 witness: `dailyStats [2,4]` has min 2 ≤ avg 3 ≤ max 4 and variance
1 ≥ 0. -/
theorem dailyStats_bounds_spec_witness :
    (2 : ℚ) ≤ 3 ∧ (3 : ℚ) ≤ 4 ∧ (0 : ℚ) ≤ 1 ∧
      0 ≤ Real.sqrt (((1 : ℚ) : ℚ) : ℝ) :=
  dailyStats_bounds_spec.1 [2, 4] 2 4 3 1 (by with_unfolding_all decide)

/-- C1: for every target day (an instant at local midnight), every history and
every lookback, `buildSeasonalForecast` returns exactly 96 points whose
timestamps start at that midnight and increase strictly in steps of 15
minutes, slot `k` carrying timestamp `t + 15 k`; being a total function, the
embedded engine returns this list (it cannot raise). -/
theorem buildSeasonalForecast_points_spec (t : ℤ) (h : List Observation)
    (w : ℕ) (ht : (1440 : ℤ) ∣ t) :
    (buildSeasonalForecast t h w).length = 96 ∧
      (∀ k : ℕ, k < 96 →
        ((buildSeasonalForecast t h w).getD k ⟨0, 0⟩).ts = t + 15 * k) ∧
      ∀ j k : ℕ, j < k → k < 96 →
        ((buildSeasonalForecast t h w).getD j ⟨0, 0⟩).ts <
          ((buildSeasonalForecast t h w).getD k ⟨0, 0⟩).ts := by
  have hbase : 1440 * t.fdiv 1440 = t := by
    obtain ⟨c, rfl⟩ := ht
    rw [Int.mul_fdiv_cancel_left c (by norm_num)]
  have hts : ∀ k : ℕ, k < 96 →
      ((buildSeasonalForecast t h w).getD k ⟨0, 0⟩).ts = t + 15 * k := by
    intro k hk
    rw [buildSeasonalForecast_eq, getD_map_range 96 k hk]
    simp [hbase]
  refine ⟨?_, hts, ?_⟩
  · rw [buildSeasonalForecast_eq]
    simp
  · intro j k hjk hk
    rw [hts j (hjk.trans hk), hts k hk]
    have hc : (j : ℤ) < (k : ℤ) := by exact_mod_cast hjk
    linarith

/-- C1 witness: the empty history over the epoch midnight. -/
theorem buildSeasonalForecast_points_spec_witness :
    (1440 : ℤ) ∣ 0 ∧ (buildSeasonalForecast 0 [] 4).length = 96 ∧
      ((buildSeasonalForecast 0 [] 4).getD 3 ⟨0, 0⟩).ts = 0 + 15 * ((3 : ℕ) : ℤ) :=
  ⟨dvd_zero 1440,
    (buildSeasonalForecast_points_spec 0 [] 4 (dvd_zero 1440)).1,
    (buildSeasonalForecast_points_spec 0 [] 4 (dvd_zero 1440)).2.1 3 (by decide)⟩

/-- C2: whenever slot `k` has at least one observation inside the lookback
window with the target's day of week and slot `k`'s time of day, the emitted
value for slot `k` is the arithmetic mean of exactly those observations'
values; observations outside the window, on a different weekday or with a
different slot index are excluded by `matchingObs` itself. -/
theorem buildSeasonalForecast_mean_spec (t : ℤ) (h : List Observation)
    (w : ℕ) (k : ℕ) (hk : k < 96) (hne : matchingObs t w k h ≠ []) :
    ((buildSeasonalForecast t h w).getD k ⟨0, 0⟩).value =
      ((matchingObs t w k h).map Observation.value).sum /
        ((matchingObs t w k h).length : ℚ) := by
  rw [buildSeasonalForecast_eq, getD_map_range 96 k hk]
  have hc : 0 < slotCount t w h k := by
    rw [slotCount, List.length_pos]
    exact hne
  show valueAt (slotSum t w h) (slotCount t w h) (seedValue t w h) k = _
  match k, hc with
  | 0, hc => rw [valueAt, if_pos hc]; rfl
  | k + 1, hc => rw [valueAt, if_pos hc]; rfl

/-- C2 witness: a lone observation seven days before the target day, in
slot 2, forecasts slot 2 with its own value (a one-element mean). -/
theorem buildSeasonalForecast_mean_spec_witness :
    (2 : ℕ) < 96 ∧ matchingObs 50400 4 2 [⟨10110, 5⟩] ≠ [] ∧
      ((buildSeasonalForecast 50400 [⟨10110, 5⟩] 4).getD 2 ⟨0, 0⟩).value =
        ((matchingObs 50400 4 2 [⟨10110, 5⟩]).map Observation.value).sum /
          ((matchingObs 50400 4 2 [⟨10110, 5⟩]).length : ℚ) :=
  ⟨by decide, by decide,
    buildSeasonalForecast_mean_spec 50400 [⟨10110, 5⟩] 4 2 (by decide) (by decide)⟩

/-- C7: the embedded engine is a pure function of its three arguments, so two
invocations on identical targets, histories and lookbacks return identical
96-point sequences; the embedding reads and writes no state besides its
arguments and result. -/
theorem buildSeasonalForecast_pure_spec (t₁ t₂ : ℤ) (h₁ h₂ : List Observation)
    (w₁ w₂ : ℕ) (ht : t₁ = t₂) (hh : h₁ = h₂) (hw : w₁ = w₂) :
    buildSeasonalForecast t₁ h₁ w₁ = buildSeasonalForecast t₂ h₂ w₂ := by
  subst ht hh hw
  rfl

/-- C7 witness. -/
theorem buildSeasonalForecast_pure_spec_witness :
    buildSeasonalForecast 0 [⟨10110, 5⟩] 4 = buildSeasonalForecast 0 [⟨10110, 5⟩] 4 :=
  buildSeasonalForecast_pure_spec 0 0 [⟨10110, 5⟩] [⟨10110, 5⟩] 4 4 rfl rfl rfl

/-- C8: the engine is invariant under permutation of the history: slot sums,
slot counts and the seed are aggregates of the multiset of matching
observations, so any reordering yields the identical 96-point output. -/
theorem buildSeasonalForecast_perm_spec (t : ℤ) (w : ℕ)
    (h₁ h₂ : List Observation) (hp : h₁.Perm h₂) :
    buildSeasonalForecast t h₁ w = buildSeasonalForecast t h₂ w := by
  have hm : ∀ k, (matchingObs t w k h₁).Perm (matchingObs t w k h₂) :=
    fun k => hp.filter (matchesSlot t w k)
  have hcnt : slotCount t w h₁ = slotCount t w h₂ := by
    funext k
    exact (hm k).length_eq
  have hsum : slotSum t w h₁ = slotSum t w h₂ := by
    funext k
    exact ((hm k).map Observation.value).sum_eq
  have hseed : seedValue t w h₁ = seedValue t w h₂ := by
    unfold seedValue
    rw [hcnt, hsum]
  rw [buildSeasonalForecast_eq, buildSeasonalForecast_eq, hcnt, hsum, hseed]

/-- C8 witness: swapping a two-observation history leaves the forecast
unchanged. -/
theorem buildSeasonalForecast_perm_spec_witness :
    ([⟨10110, 5⟩, ⟨10140, 7⟩] : List Observation).Perm [⟨10140, 7⟩, ⟨10110, 5⟩] ∧
      buildSeasonalForecast 50400 [⟨10110, 5⟩, ⟨10140, 7⟩] 4 =
        buildSeasonalForecast 50400 [⟨10140, 7⟩, ⟨10110, 5⟩] 4 :=
  ⟨List.Perm.swap (⟨10140, 7⟩ : Observation) ⟨10110, 5⟩ [],
    buildSeasonalForecast_perm_spec 50400 4 _ _
      (List.Perm.swap (⟨10140, 7⟩ : Observation) ⟨10110, 5⟩ [])⟩

/-- C3: the fallback policy.  (i) A slot `k+1` with no matching observation is
emitted with the value of the nearest lower-indexed emitted slot, namely the
value emitted at slot `k` (strict carry-forward).  (ii) When slot 0 itself has
no data, its emitted value is the carry-forward seed: the average of the first
slot, scanning upward from 0, that does have data.  (iii) When no slot at all
has matching data, every emitted value equals the numeric-zero fallback. -/
theorem buildSeasonalForecast_fallback_spec (t : ℤ) (h : List Observation)
    (w : ℕ) :
    (∀ k : ℕ, k + 1 < 96 → matchingObs t w (k + 1) h = [] →
      ((buildSeasonalForecast t h w).getD (k + 1) ⟨0, 0⟩).value =
        ((buildSeasonalForecast t h w).getD k ⟨0, 0⟩).value) ∧
      (matchingObs t w 0 h = [] →
        ∀ j : ℕ,
          (List.range 96).find?
              (fun i => decide (0 < slotCount t w h i)) = some j →
          ((buildSeasonalForecast t h w).getD 0 ⟨0, 0⟩).value =
            ((matchingObs t w j h).map Observation.value).sum /
              ((matchingObs t w j h).length : ℚ)) ∧
      ((∀ k : ℕ, k < 96 → matchingObs t w k h = []) →
        ∀ k : ℕ, k < 96 →
          ((buildSeasonalForecast t h w).getD k ⟨0, 0⟩).value = 0) := by
  refine ⟨?_, ?_, ?_⟩
  · intro k hk hempty
    have hc : ¬0 < slotCount t w h (k + 1) := by
      rw [slotCount, hempty]
      simp
    rw [buildSeasonalForecast_eq, getD_map_range 96 (k + 1) hk,
      getD_map_range 96 k (by omega)]
    show valueAt _ _ _ (k + 1) = valueAt _ _ _ k
    rw [valueAt, if_neg hc]
  · intro h0 j hj
    have hc : ¬0 < slotCount t w h 0 := by
      rw [slotCount, h0]
      simp
    rw [buildSeasonalForecast_eq, getD_map_range 96 0 (by norm_num)]
    show valueAt _ _ _ 0 = _
    rw [valueAt, if_neg hc]
    unfold seedValue
    rw [hj]
    rfl
  · intro hall k hk
    have hcnt : ∀ i, i < 96 → slotCount t w h i = 0 := by
      intro i hi
      rw [slotCount, hall i hi]
      rfl
    have hfind : (List.range 96).find?
        (fun i => decide (0 < slotCount t w h i)) = none := by
      rw [List.find?_eq_none]
      intro x hx
      rw [hcnt x (List.mem_range.mp hx)]
      simp
    have hseed : seedValue t w h = 0 := by
      unfold seedValue
      rw [hfind]
    rw [buildSeasonalForecast_eq, getD_map_range 96 k hk]
    have hval : ∀ m, m < 96 →
        valueAt (slotSum t w h) (slotCount t w h) (seedValue t w h) m = 0 := by
      intro m
      induction m with
      | zero =>
        intro hm
        rw [valueAt, hcnt 0 hm]
        simpa using hseed
      | succ n ih =>
        intro hm
        rw [valueAt, hcnt (n + 1) hm]
        simpa using ih (by omega)
    exact hval k hk

/-- C3 witness: with matching data only in slot 2, empty slot 3 carries
slot 2's emitted value forward. -/
theorem buildSeasonalForecast_fallback_spec_witness :
    (2 + 1 : ℕ) < 96 ∧ matchingObs 50400 4 (2 + 1) [⟨10110, 5⟩] = [] ∧
      ((buildSeasonalForecast 50400 [⟨10110, 5⟩] 4).getD (2 + 1) ⟨0, 0⟩).value =
        ((buildSeasonalForecast 50400 [⟨10110, 5⟩] 4).getD 2 ⟨0, 0⟩).value :=
  ⟨by decide, by decide,
    (buildSeasonalForecast_fallback_spec 50400 [⟨10110, 5⟩] 4).1 2
      (by decide) (by decide)⟩
